import Mathlib

/-!
# Verification of the EIS forward-simulation core

A shallow embedding of the EIS simulator (`src/utils/eis_simulation.py`),
the training preprocessor (`src/ml_model.py`), the spectrum loader
(`src/corrosion_predictor.py`) and the dashboard export path (`src/app.py`),
together with theorems settling the specification claims.

Conventions of the embedding:
* numpy float arrays become functions `ℕ → ℝ` (resp. `ℕ → ℕ → ℂ` for
  complex matrices); indices beyond the logical bounds are harmless junk.
* numpy complex arithmetic becomes Mathlib `ℂ` arithmetic; the principal
  complex power `(jω)^α` is Mathlib `cpow`.
* the process-global random source is externalized: each call to
  `np.random.rand(size_number)` becomes an explicit input stream `ℕ → ℝ`
  of uniform draws, passed in the order the source performs the draws.
* a Python `raise` becomes `Except.error`.
-/

open Real Complex

namespace EIS

/-- `np.logspace(start, stop, num, endpoint=True)` (base 10): the `i`-th
sample is `10 ^ (start + (stop - start) * i / (num - 1))`.  For `num = 1`
the real division by zero yields exponent `start`, matching numpy's
single-sample behaviour. -/
noncomputable def logspace (start stop : ℝ) (num : ℕ) : ℕ → ℝ :=
  fun i => (10 : ℝ) ^ (start + (stop - start) * i / ((num : ℝ) - 1))

/-- `F_range` from `eis_simulation.py`: log-spaced frequency grid between
`initial_frequency` and `last_frequency`, plus angular frequencies
`ω = 2π·f`.  Returns `(angular_frequency, frequency_Hz)`.  The source
performs no input validation. -/
noncomputable def F_range (initial_frequency last_frequency : ℝ)
    (number_of_point : ℕ) : (ℕ → ℝ) × (ℕ → ℝ) :=
  let frequency_Hz : ℕ → ℝ :=
    logspace (Real.logb 10 initial_frequency) (Real.logb 10 last_frequency)
      number_of_point
  let angular_frequency : ℕ → ℝ := fun i => 2 * π * frequency_Hz i
  (angular_frequency, frequency_Hz)

/-- `Z_R`: impedance of a resistor. -/
def Z_R (resistance : ℝ) : ℝ := resistance

/-- `Z_Q`: impedance of a constant phase element,
`1 / (Q · (ω·j)^α)` with the principal complex power.  The source performs
no domain validation. -/
noncomputable def Z_Q (non_ideal_capacitance ideality_factor
    angular_frequency : ℝ) : ℂ :=
  1 / (non_ideal_capacitance *
    ((angular_frequency : ℂ) * I) ^ (ideality_factor : ℂ))

/-- `Z_W`: impedance of an infinite Warburg element,
`σ·√2 / √(j·ω)` with numpy's principal complex square root `z ^ (1/2)`.
The source performs no domain validation. -/
noncomputable def Z_W (sigma angular_frequency : ℝ) : ℂ :=
  ((sigma * Real.sqrt 2 : ℝ) : ℂ) / (I * (angular_frequency : ℂ)) ^ ((1 : ℂ) / 2)

/-- `log_rand`: random values in log space,
`exp(ln lo + (ln hi − ln lo) · u)` where `u` is the externalized stream of
`np.random.rand` draws. -/
noncomputable def log_rand (initial_gen last_gen : ℝ) (u : ℕ → ℝ) : ℕ → ℝ :=
  fun i => Real.exp (Real.log initial_gen +
    (Real.log last_gen - Real.log initial_gen) * u i)

/-- `lin_rand`: random values in linear space, `lo + (hi − lo) · u`. -/
noncomputable def lin_rand (initial_gen last_gen : ℝ) (u : ℕ → ℝ) : ℕ → ℝ :=
  fun i => initial_gen + (last_gen - initial_gen) * u i

/-- Round to the nearest integer, ties to even — the rounding mode of
`np.round`. -/
noncomputable def roundHalfEven (x : ℝ) : ℤ :=
  if Int.fract x < 1 / 2 then ⌊x⌋
  else if 1 / 2 < Int.fract x then ⌊x⌋ + 1
  else if Even ⌊x⌋ then ⌊x⌋ else ⌊x⌋ + 1

/-- `np.round(x, 3)`: scale by `10^3`, round half-to-even, scale back. -/
noncomputable def np_round3 (x : ℝ) : ℝ := (roundHalfEven (1000 * x) : ℝ) / 1000

/-- `genZR`: broadcast resistor impedance over the frequency grid. -/
noncomputable def genZR (resistance : ℕ → ℝ) : ℕ → ℕ → ℂ :=
  fun idx _idx2 => ((Z_R (resistance idx) : ℝ) : ℂ)

/-- `genZQ`: CPE impedance matrix, entry `(idx, idx2)` is
`Z_Q(Q[idx], α[idx], ω[idx2])`. -/
noncomputable def genZQ (non_ideal_capacitance ideality_factor
    angular_frequency : ℕ → ℝ) : ℕ → ℕ → ℂ :=
  fun idx idx2 => Z_Q (non_ideal_capacitance idx) (ideality_factor idx)
    (angular_frequency idx2)

/-- `genZW`: Warburg impedance matrix. -/
noncomputable def genZW (sigma angular_frequency : ℕ → ℝ) : ℕ → ℕ → ℂ :=
  fun idx idx2 => Z_W (sigma idx) (angular_frequency idx2)

/-- `_sim_cir1`: circuit 1, `R1 + (R2 ∥ Q1)`.  The four uniform streams
`u1..u4` feed the draws in source order: `R1, R2, α1, Q1`. -/
noncomputable def sim_cir1 (angular_frequency : ℕ → ℝ)
    (resistance_range alpha_range q_range : ℝ × ℝ)
    (u1 u2 u3 u4 : ℕ → ℝ) : (ℕ → ℕ → ℂ) × (ℕ → List ℝ) :=
  let R1 := log_rand resistance_range.1 resistance_range.2 u1
  let Zr1 := genZR R1
  let R2 := log_rand resistance_range.1 resistance_range.2 u2
  let Zr2 := genZR R2
  let ideality_factor1 := fun i => np_round3 (lin_rand alpha_range.1 alpha_range.2 u3 i)
  let Q1 := log_rand q_range.1 q_range.2 u4
  let Zq1 := genZQ Q1 ideality_factor1 angular_frequency
  (fun i k => Zr1 i k + 1 / (1 / Zr2 i k + 1 / Zq1 i k),
   fun i => [R1 i, R2 i, ideality_factor1 i, Q1 i])

/-- `_sim_cir2`: circuit 2, `R1 + (R2 ∥ Q1) + (R3 ∥ Q2)`.  Streams
`u1..u7` feed the draws in source order: `R1, R2, α1, Q1, R3, α2, Q2`.
As in the source, `Zq2` is generated with `ideality_factor1`. -/
noncomputable def sim_cir2 (angular_frequency : ℕ → ℝ)
    (resistance_range alpha_range q_range : ℝ × ℝ)
    (u1 u2 u3 u4 u5 u6 u7 : ℕ → ℝ) : (ℕ → ℕ → ℂ) × (ℕ → List ℝ) :=
  let R1 := log_rand resistance_range.1 resistance_range.2 u1
  let Zr1 := genZR R1
  let R2 := log_rand resistance_range.1 resistance_range.2 u2
  let Zr2 := genZR R2
  let ideality_factor1 := fun i => np_round3 (lin_rand alpha_range.1 alpha_range.2 u3 i)
  let Q1 := log_rand q_range.1 q_range.2 u4
  let Zq1 := genZQ Q1 ideality_factor1 angular_frequency
  let R3 := log_rand resistance_range.1 resistance_range.2 u5
  let Zr3 := genZR R3
  let ideality_factor2 := fun i => np_round3 (lin_rand alpha_range.1 alpha_range.2 u6 i)
  let Q2 := log_rand q_range.1 q_range.2 u7
  let Zq2 := genZQ Q2 ideality_factor1 angular_frequency
  (fun i k => Zr1 i k + 1 / (1 / Zr2 i k + 1 / Zq1 i k)
      + 1 / (1 / Zr3 i k + 1 / Zq2 i k),
   fun i => [R1 i, R2 i, R3 i, ideality_factor1 i, Q1 i,
     ideality_factor2 i, Q2 i])

/-- `_sim_cir3`: circuit 3, `R1 + (Q1 ∥ (R2 + W))`.  Streams `u1..u5`
feed the draws in source order: `R1, α1, Q1, R2, σ`. -/
noncomputable def sim_cir3 (angular_frequency : ℕ → ℝ)
    (resistance_range alpha_range q_range sigma_range : ℝ × ℝ)
    (u1 u2 u3 u4 u5 : ℕ → ℝ) : (ℕ → ℕ → ℂ) × (ℕ → List ℝ) :=
  let R1 := log_rand resistance_range.1 resistance_range.2 u1
  let Zr1 := genZR R1
  let ideality_factor1 := fun i => np_round3 (lin_rand alpha_range.1 alpha_range.2 u2 i)
  let Q1 := log_rand q_range.1 q_range.2 u3
  let Zq1 := genZQ Q1 ideality_factor1 angular_frequency
  let R2 := log_rand resistance_range.1 resistance_range.2 u4
  let Zr2 := genZR R2
  let sigma := log_rand sigma_range.1 sigma_range.2 u5
  let Zw := genZW sigma angular_frequency
  (fun i k => Zr1 i k + 1 / (1 / Zq1 i k + 1 / (Zr2 i k + Zw i k)),
   fun i => [R1 i, R2 i, ideality_factor1 i, Q1 i, sigma i])

/-- `_sim_cir4`: circuit 4, `R1 + (R2 ∥ Q1) + (Q2 ∥ (R3 + W))`.  Streams
`u1..u8` feed the draws in source order: `R1, R2, α1, Q1, α2, Q2, R3, σ`.
As in the source, `Zq2` is generated with `ideality_factor1`. -/
noncomputable def sim_cir4 (angular_frequency : ℕ → ℝ)
    (resistance_range alpha_range q_range sigma_range : ℝ × ℝ)
    (u1 u2 u3 u4 u5 u6 u7 u8 : ℕ → ℝ) : (ℕ → ℕ → ℂ) × (ℕ → List ℝ) :=
  let R1 := log_rand resistance_range.1 resistance_range.2 u1
  let Zr1 := genZR R1
  let R2 := log_rand resistance_range.1 resistance_range.2 u2
  let Zr2 := genZR R2
  let ideality_factor1 := fun i => np_round3 (lin_rand alpha_range.1 alpha_range.2 u3 i)
  let Q1 := log_rand q_range.1 q_range.2 u4
  let Zq1 := genZQ Q1 ideality_factor1 angular_frequency
  let ideality_factor2 := fun i => np_round3 (lin_rand alpha_range.1 alpha_range.2 u5 i)
  let Q2 := log_rand q_range.1 q_range.2 u6
  let Zq2 := genZQ Q2 ideality_factor1 angular_frequency
  let R3 := log_rand resistance_range.1 resistance_range.2 u7
  let Zr3 := genZR R3
  let sigma := log_rand sigma_range.1 sigma_range.2 u8
  let Zw := genZW sigma angular_frequency
  (fun i k => Zr1 i k + 1 / (1 / Zr2 i k + 1 / Zq1 i k)
      + 1 / (1 / Zq2 i k + 1 / (Zr3 i k + Zw i k)),
   fun i => [R1 i, R2 i, R3 i, ideality_factor1 i, Q1 i,
     ideality_factor2 i, Q2 i, sigma i])

/-- `_sim_cir5`: circuit 5, `R1 + ((R2 + ((R3 + W) ∥ Q2)) ∥ Q1)`.  Streams
`u1..u8` feed the draws in source order: `R1, R2, α1, Q1, R3, α2, Q2, σ`.
As in the source, `Zq2` is generated with `ideality_factor1`. -/
noncomputable def sim_cir5 (angular_frequency : ℕ → ℝ)
    (resistance_range alpha_range q_range sigma_range : ℝ × ℝ)
    (u1 u2 u3 u4 u5 u6 u7 u8 : ℕ → ℝ) : (ℕ → ℕ → ℂ) × (ℕ → List ℝ) :=
  let R1 := log_rand resistance_range.1 resistance_range.2 u1
  let Zr1 := genZR R1
  let R2 := log_rand resistance_range.1 resistance_range.2 u2
  let Zr2 := genZR R2
  let ideality_factor1 := fun i => np_round3 (lin_rand alpha_range.1 alpha_range.2 u3 i)
  let Q1 := log_rand q_range.1 q_range.2 u4
  let Zq1 := genZQ Q1 ideality_factor1 angular_frequency
  let R3 := log_rand resistance_range.1 resistance_range.2 u5
  let Zr3 := genZR R3
  let ideality_factor2 := fun i => np_round3 (lin_rand alpha_range.1 alpha_range.2 u6 i)
  let Q2 := log_rand q_range.1 q_range.2 u7
  let Zq2 := genZQ Q2 ideality_factor1 angular_frequency
  let sigma := log_rand sigma_range.1 sigma_range.2 u8
  let Zw := genZW sigma angular_frequency
  (fun i k => Zr1 i k +
      1 / (1 / (Zr2 i k + 1 / (1 / (Zr3 i k + Zw i k) + 1 / Zq2 i k))
        + 1 / Zq1 i k),
   fun i => [R1 i, R2 i, R3 i, ideality_factor1 i, Q1 i,
     ideality_factor2 i, Q2 i, sigma i])

/-- `sim_circuit`: dispatch on `circuit_id`, raising
(`Except.error`) for unknown identifiers, as the source's
`raise ValueError(f"Unknown circuit_id: ...")`. -/
noncomputable def sim_circuit (circuit_id : ℤ) (angular_frequency : ℕ → ℝ)
    (resistance_range alpha_range q_range sigma_range : ℝ × ℝ)
    (u1 u2 u3 u4 u5 u6 u7 u8 : ℕ → ℝ) :
    Except String ((ℕ → ℕ → ℂ) × (ℕ → List ℝ)) :=
  if circuit_id = 1 then
    .ok (sim_cir1 angular_frequency resistance_range alpha_range q_range
      u1 u2 u3 u4)
  else if circuit_id = 2 then
    .ok (sim_cir2 angular_frequency resistance_range alpha_range q_range
      u1 u2 u3 u4 u5 u6 u7)
  else if circuit_id = 3 then
    .ok (sim_cir3 angular_frequency resistance_range alpha_range q_range
      sigma_range u1 u2 u3 u4 u5)
  else if circuit_id = 4 then
    .ok (sim_cir4 angular_frequency resistance_range alpha_range q_range
      sigma_range u1 u2 u3 u4 u5 u6 u7 u8)
  else if circuit_id = 5 then
    .ok (sim_cir5 angular_frequency resistance_range alpha_range q_range
      sigma_range u1 u2 u3 u4 u5 u6 u7 u8)
  else
    .error ("Unknown circuit_id: " ++ toString circuit_id)

/-- `np.degrees`. -/
noncomputable def degrees (x : ℝ) : ℝ := x * 180 / π

/-- `np.arctan2(y, x)`: the quadrant-correct four-argument arctangent
(signed zeros of floating point are not modelled; `arctan2 0 0 = 0`). -/
noncomputable def arctan2 (y x : ℝ) : ℝ :=
  if 0 < x then Real.arctan (y / x)
  else if x < 0 then
    (if 0 ≤ y then Real.arctan (y / x) + π else Real.arctan (y / x) - π)
  else
    (if 0 < y then π / 2 else if y < 0 then -(π / 2) else 0)

/-- `arrange_data` from `eis_simulation.py`: the persisted-export feature
encoding.  Channel 0 is the imaginary part, channel 1 the phase in degrees
computed via the quadrant-blind `np.arctan(Im/Re)`, channel 2 the
magnitude; the second component is the class-label vector. -/
noncomputable def arrange_data (Circuit : ℕ → ℕ → ℂ) (cir_class : ℝ) :
    (ℕ → ℕ → ℕ → ℝ) × (ℕ → ℝ) :=
  (fun idx ch idx2 =>
      if ch = 0 then (Circuit idx idx2).im
      else if ch = 1 then
        degrees (Real.arctan ((Circuit idx idx2).im / (Circuit idx idx2).re))
      else if ch = 2 then Complex.abs (Circuit idx idx2)
      else 0,
   fun _idx => cir_class)

/-- The `.mat`-download feature encoding built in `app.py`
(`np.stack([imag, degrees(arctan2(im, re)), abs], axis=1)`). -/
noncomputable def app_mat_x_data (Zsum : ℕ → ℕ → ℂ) : ℕ → ℕ → ℕ → ℝ :=
  fun idx ch idx2 =>
    if ch = 0 then (Zsum idx idx2).im
    else if ch = 1 then
      degrees (arctan2 (Zsum idx idx2).im (Zsum idx idx2).re)
    else if ch = 2 then Complex.abs (Zsum idx idx2)
    else 0

/-- The column scaling applied to the parameter matrix by
`load_and_preprocess_data` in `ml_model.py` when the matrix has at least 7
columns: test mode multiplies columns 4 and 6 by `10^6`; train mode
multiplies columns 3 and 5 by `10^4` and columns 4 and 6 by `10^7`. -/
noncomputable def scale_y (is_test : Bool) (y : ℕ → ℕ → ℝ) : ℕ → ℕ → ℝ :=
  fun i j =>
    if is_test then (if j = 4 ∨ j = 6 then y i j * 10 ^ 6 else y i j)
    else if j = 3 ∨ j = 5 then y i j * 10 ^ 4
    else if j = 4 ∨ j = 6 then y i j * 10 ^ 7
    else y i j

/-- `np.delete(y, [3, 5], axis=1)`: column `j` of the result is column
`j` (for `j < 3`), column `j + 1` (for `j = 3`), or column `j + 2` (for
`j ≥ 4`) of the input. -/
noncomputable def delete_cols_3_5 (y : ℕ → ℕ → ℝ) : ℕ → ℕ → ℝ :=
  fun i j => if j < 3 then y i j else if j < 4 then y i (j + 1) else y i (j + 2)

/-- The `y`-side of `load_and_preprocess_data` in `ml_model.py`: when the
parameter matrix has at least 7 columns, scale the Q/α columns and strip
columns 3 and 5 (leaving two fewer columns); otherwise pass the matrix
through unchanged.  Returns the matrix and its resulting column count. -/
noncomputable def load_and_preprocess_y (is_test : Bool) (n_ycols : ℕ)
    (y : ℕ → ℕ → ℝ) : (ℕ → ℕ → ℝ) × ℕ :=
  if 7 ≤ n_ycols then (delete_cols_3_5 (scale_y is_test y), n_ycols - 2)
  else (y, n_ycols)

/-- The augmentation step of `load_mat_spectrum` in
`corrosion_predictor.py`: after `swapaxes(1, 2)` the array is indexed as
`(sample, point, channel)`; the first `n_channels` channels are the input
channels transposed, the next `n_channels` are their negations. -/
noncomputable def mat_augment (n_channels : ℕ) (x : ℕ → ℕ → ℕ → ℝ) :
    ℕ → ℕ → ℕ → ℝ :=
  fun n p c =>
    if c < n_channels then x n c p
    else if c < 2 * n_channels then -(x n (c - n_channels) p)
    else 0

/-- `load_mat_spectrum` from `corrosion_predictor.py`: take the first
sample of the augmented array and flatten it row-major over
`(point, channel)`, giving the single feature row the regressor consumes. -/
noncomputable def load_mat_spectrum (n_channels : ℕ) (x : ℕ → ℕ → ℕ → ℝ) :
    ℕ → ℝ :=
  fun j => mat_augment n_channels x 0 (j / (2 * n_channels)) (j % (2 * n_channels))

/-- The specification's parallel combination `A ∥ B = 1/(1/A + 1/B)`
(§4.4).  Spec-side definition, used to state the circuit-table claims. -/
noncomputable def par (A B : ℂ) : ℂ := 1 / (1 / A + 1 / B)

/-- A concrete circuit-2 run, used to test the claimed α/Q pairing: every
log-uniform range is degenerate at `1`, the ideality range is `[1/2, 1]`,
the α1 draw is `1` and the α2 draw is `0`, so the sampled ideality factors
are `α1 = 1` and `α2 = 1/2`; the (single) angular frequency is `1`. -/
noncomputable def cir2Example : (ℕ → ℕ → ℂ) × (ℕ → List ℝ) :=
  sim_cir2 (fun _ => 1) (1, 1) (1 / 2, 1) (1, 1)
    (fun _ => 0) (fun _ => 0) (fun _ => 1) (fun _ => 0) (fun _ => 0)
    (fun _ => 0) (fun _ => 0)

/-! ## Supporting lemmas -/

lemma omega_mul_I_ne_zero {ω : ℝ} (hω : ω ≠ 0) : (ω : ℂ) * I ≠ 0 :=
  mul_ne_zero (Complex.ofReal_ne_zero.mpr hω) Complex.I_ne_zero

lemma log_omega_mul_I {ω : ℝ} (hω : 0 < ω) :
    Complex.log ((ω : ℂ) * I) = (Real.log ω : ℂ) + ((π / 2 : ℝ) : ℂ) * I := by
  simp [Complex.log, map_mul, Complex.abs_ofReal, Complex.abs_I,
    abs_of_pos hω, Complex.arg_real_mul _ hω, Complex.arg_I]

/-- The principal power `(ω·j)^α` for `ω > 0`, in polar form. -/
lemma omega_mul_I_cpow {ω α : ℝ} (hω : 0 < ω) :
    ((ω : ℂ) * I) ^ (α : ℂ) =
      ((ω ^ α : ℝ) : ℂ) *
        (((Real.cos (α * π / 2) : ℝ) : ℂ) + ((Real.sin (α * π / 2) : ℝ) : ℂ) * I) := by
  rw [Complex.cpow_def_of_ne_zero (omega_mul_I_ne_zero hω.ne'), log_omega_mul_I hω]
  have h1 : ((Real.log ω : ℂ) + ((π / 2 : ℝ) : ℂ) * I) * (α : ℂ)
      = ((Real.log ω * α : ℝ) : ℂ) + ((α * π / 2 : ℝ) : ℂ) * I := by
    push_cast; ring
  rw [h1, Complex.exp_add, ← Complex.ofReal_exp, ← Real.rpow_def_of_pos hω,
    Complex.exp_mul_I, ← Complex.ofReal_cos, ← Complex.ofReal_sin]

lemma log_omega_mul_I_of_neg {ω : ℝ} (hω : ω < 0) :
    Complex.log ((ω : ℂ) * I) = (Real.log (-ω) : ℂ) + ((-(π / 2) : ℝ) : ℂ) * I := by
  have h : (ω : ℂ) * I = ((-ω : ℝ) : ℂ) * (-I) := by push_cast; ring
  have harg : Complex.arg ((ω : ℂ) * I) = -(π / 2) := by
    rw [h, Complex.arg_real_mul _ (neg_pos.mpr hω), Complex.arg_neg_I]
  have habs : Complex.abs ((ω : ℂ) * I) = -ω := by
    rw [h]
    simp [map_mul, Complex.abs_ofReal, abs_of_pos (neg_pos.mpr hω)]
    exact hω.le
  simp [Complex.log, harg, habs]

/-- The principal power `(ω·j)^α` for `ω < 0`, in polar form. -/
lemma omega_mul_I_cpow_of_neg {ω α : ℝ} (hω : ω < 0) :
    ((ω : ℂ) * I) ^ (α : ℂ) =
      (((-ω) ^ α : ℝ) : ℂ) *
        (((Real.cos (α * π / 2) : ℝ) : ℂ) - ((Real.sin (α * π / 2) : ℝ) : ℂ) * I) := by
  rw [Complex.cpow_def_of_ne_zero (omega_mul_I_ne_zero hω.ne), log_omega_mul_I_of_neg hω]
  have h1 : ((Real.log (-ω) : ℂ) + ((-(π / 2) : ℝ) : ℂ) * I) * (α : ℂ)
      = ((Real.log (-ω) * α : ℝ) : ℂ) + ((-(α * π / 2) : ℝ) : ℂ) * I := by
    push_cast; ring
  rw [h1, Complex.exp_add, ← Complex.ofReal_exp,
    ← Real.rpow_def_of_pos (neg_pos.mpr hω), Complex.exp_mul_I,
    ← Complex.ofReal_cos, ← Complex.ofReal_sin, Real.cos_neg, Real.sin_neg]
  push_cast; ring

/-- `Z_Q` in polar form, valid for every nonzero `Q` and every `ω > 0`. -/
lemma Z_Q_polar (Q α : ℝ) {ω : ℝ} (hω : 0 < ω) :
    Z_Q Q α ω = 1 / ((Q : ℂ) * ((ω ^ α : ℝ) : ℂ) *
      (((Real.cos (α * π / 2) : ℝ) : ℂ) + ((Real.sin (α * π / 2) : ℝ) : ℂ) * I)) := by
  rw [Z_Q, omega_mul_I_cpow hω, mul_assoc]

lemma one_add_I_ne_zero : (1 : ℂ) + I ≠ 0 := by
  intro h
  have := congrArg Complex.re h
  simp at this

lemma one_sub_I_ne_zero : (1 : ℂ) - I ≠ 0 := by
  intro h
  have := congrArg Complex.re h
  simp at this

/-- `Z_W` in closed form for `ω > 0`: `σ·(1 − j)/√ω`. -/
lemma Z_W_closed {σ ω : ℝ} (hω : 0 < ω) :
    Z_W σ ω = (σ : ℂ) * (1 - I) / ((Real.sqrt ω : ℝ) : ℂ) := by
  rw [Z_W, mul_comm I ((ω : ℂ)),
    show ((1 : ℂ) / 2) = ((1 / 2 : ℝ) : ℂ) by norm_num,
    omega_mul_I_cpow hω,
    show (1 / 2 : ℝ) * π / 2 = π / 4 by ring,
    Real.cos_pi_div_four, Real.sin_pi_div_four,
    show (ω : ℝ) ^ (1 / 2 : ℝ) = Real.sqrt ω by rw [Real.sqrt_eq_rpow]]
  have hsw : ((Real.sqrt ω : ℝ) : ℂ) ≠ 0 :=
    Complex.ofReal_ne_zero.mpr (Real.sqrt_pos.mpr hω).ne'
  have hs2 : ((Real.sqrt 2 : ℝ) : ℂ) ≠ 0 :=
    Complex.ofReal_ne_zero.mpr (Real.sqrt_pos.mpr (by norm_num)).ne'
  have hfac : ((Real.sqrt 2 / 2 : ℝ) : ℂ) + ((Real.sqrt 2 / 2 : ℝ) : ℂ) * I
      = ((Real.sqrt 2 : ℝ) : ℂ) / 2 * (1 + I) := by push_cast; ring
  rw [hfac]
  rw [div_eq_div_iff (by
      exact mul_ne_zero hsw (mul_ne_zero (div_ne_zero hs2 two_ne_zero) one_add_I_ne_zero))
    hsw]
  push_cast
  linear_combination
    ((σ : ℂ) * ((Real.sqrt 2 : ℝ) : ℂ) * ((Real.sqrt ω : ℝ) : ℂ) / 2) * Complex.I_sq

/-- `Z_W` in closed form for `ω < 0`: `σ·(1 + j)/√(−ω)`; no failure occurs. -/
lemma Z_W_closed_of_neg {σ ω : ℝ} (hω : ω < 0) :
    Z_W σ ω = (σ : ℂ) * (1 + I) / ((Real.sqrt (-ω) : ℝ) : ℂ) := by
  rw [Z_W, mul_comm I ((ω : ℂ)),
    show ((1 : ℂ) / 2) = ((1 / 2 : ℝ) : ℂ) by norm_num,
    omega_mul_I_cpow_of_neg hω,
    show (1 / 2 : ℝ) * π / 2 = π / 4 by ring,
    Real.cos_pi_div_four, Real.sin_pi_div_four,
    show (-ω : ℝ) ^ (1 / 2 : ℝ) = Real.sqrt (-ω) by rw [Real.sqrt_eq_rpow]]
  have hsw : ((Real.sqrt (-ω) : ℝ) : ℂ) ≠ 0 :=
    Complex.ofReal_ne_zero.mpr (Real.sqrt_pos.mpr (neg_pos.mpr hω)).ne'
  have hs2 : ((Real.sqrt 2 : ℝ) : ℂ) ≠ 0 :=
    Complex.ofReal_ne_zero.mpr (Real.sqrt_pos.mpr (by norm_num)).ne'
  have hfac : ((Real.sqrt 2 / 2 : ℝ) : ℂ) - ((Real.sqrt 2 / 2 : ℝ) : ℂ) * I
      = ((Real.sqrt 2 : ℝ) : ℂ) / 2 * (1 - I) := by push_cast; ring
  rw [hfac]
  rw [div_eq_div_iff (by
      exact mul_ne_zero hsw (mul_ne_zero (div_ne_zero hs2 two_ne_zero) one_sub_I_ne_zero))
    hsw]
  push_cast
  linear_combination
    ((σ : ℂ) * ((Real.sqrt 2 : ℝ) : ℂ) * ((Real.sqrt (-ω) : ℝ) : ℂ) / 2) * Complex.I_sq

lemma arg_mem_Ioo_of_re_pos {z : ℂ} (hz : 0 < z.re) :
    Complex.arg z ∈ Set.Ioo (-(π / 2)) (π / 2) := by
  have hz0 : z ≠ 0 := fun h => by simp [h] at hz
  have hcos : 0 < Real.cos (Complex.arg z) := by
    rw [Complex.cos_arg hz0]
    exact div_pos hz (Complex.abs.pos hz0)
  constructor
  · by_contra hle
    push_neg at hle
    have hc : Real.cos (Complex.arg z) ≤ 0 := by
      rw [← Real.cos_neg]
      apply Real.cos_nonpos_of_pi_div_two_le_of_le
      · linarith
      · have := Complex.neg_pi_lt_arg z
        linarith [Real.pi_pos]
    linarith
  · by_contra hge
    push_neg at hge
    have hc : Real.cos (Complex.arg z) ≤ 0 :=
      Real.cos_nonpos_of_pi_div_two_le_of_le hge
        (by linarith [Complex.arg_le_pi z, Real.pi_pos])
    linarith

/-- For a point in the open right half-plane the principal argument is the
plain arctangent of `im/re`. -/
lemma arctan_im_div_re_eq_arg {z : ℂ} (hz : 0 < z.re) :
    Real.arctan (z.im / z.re) = Complex.arg z :=
  Real.arctan_eq_of_tan_eq (Complex.tan_arg z) (arg_mem_Ioo_of_re_pos hz)

lemma arctan_add_pi_eq_arg {z : ℂ} (hre : z.re < 0) (him : 0 ≤ z.im) :
    Real.arctan (z.im / z.re) + π = Complex.arg z := by
  have hz0 : z ≠ 0 := fun h => by simp [h] at hre
  have hcos : Real.cos (Complex.arg z) < 0 := by
    rw [Complex.cos_arg hz0]
    exact div_neg_of_neg_of_pos hre (Complex.abs.pos hz0)
  have hsin : 0 ≤ Real.sin (Complex.arg z) := by
    rw [Complex.sin_arg]
    exact div_nonneg him (Complex.abs.nonneg z)
  have hgt : π / 2 < Complex.arg z := by
    by_contra hle
    push_neg at hle
    rcases le_or_lt (-(π / 2)) (Complex.arg z) with h1 | h1
    · have : 0 ≤ Real.cos (Complex.arg z) := Real.cos_nonneg_of_mem_Icc ⟨h1, hle⟩
      linarith
    · have : Real.sin (Complex.arg z) < 0 :=
        Real.sin_neg_of_neg_of_neg_pi_lt (by linarith [Real.pi_pos])
          (Complex.neg_pi_lt_arg z)
      linarith
  have hmem : Complex.arg z - π ∈ Set.Ioo (-(π / 2)) (π / 2) :=
    ⟨by linarith, by linarith [Complex.arg_le_pi z, Real.pi_pos]⟩
  have htan : Real.tan (Complex.arg z - π) = z.im / z.re := by
    have h := Real.tan_periodic (Complex.arg z - π)
    rw [sub_add_cancel] at h
    rw [← h]
    exact Complex.tan_arg z
  have := Real.arctan_eq_of_tan_eq htan hmem
  linarith

lemma arctan_sub_pi_eq_arg {z : ℂ} (hre : z.re < 0) (him : z.im < 0) :
    Real.arctan (z.im / z.re) - π = Complex.arg z := by
  have hz0 : z ≠ 0 := fun h => by simp [h] at hre
  have hcos : Real.cos (Complex.arg z) < 0 := by
    rw [Complex.cos_arg hz0]
    exact div_neg_of_neg_of_pos hre (Complex.abs.pos hz0)
  have hsin : Real.sin (Complex.arg z) < 0 := by
    rw [Complex.sin_arg]
    exact div_neg_of_neg_of_pos him (Complex.abs.pos hz0)
  have hlt : Complex.arg z < -(π / 2) := by
    by_contra hge
    push_neg at hge
    rcases le_or_lt (Complex.arg z) (π / 2) with h1 | h1
    · have : 0 ≤ Real.cos (Complex.arg z) := Real.cos_nonneg_of_mem_Icc ⟨hge, h1⟩
      linarith
    · have : 0 ≤ Real.sin (Complex.arg z) :=
        Real.sin_nonneg_of_nonneg_of_le_pi (by linarith [Real.pi_pos])
          (Complex.arg_le_pi z)
      linarith
  have hmem : Complex.arg z + π ∈ Set.Ioo (-(π / 2)) (π / 2) :=
    ⟨by linarith [Complex.neg_pi_lt_arg z, Real.pi_pos], by linarith⟩
  have htan : Real.tan (Complex.arg z + π) = z.im / z.re := by
    rw [Real.tan_periodic (Complex.arg z)]
    exact Complex.tan_arg z
  have := Real.arctan_eq_of_tan_eq htan hmem
  linarith

/-- The embedded `np.arctan2` agrees everywhere with Mathlib's principal
argument: `arctan2 y x = arg (x + y·j)`. -/
lemma arctan2_eq_arg (z : ℂ) : arctan2 z.im z.re = Complex.arg z := by
  unfold arctan2
  rcases lt_trichotomy z.re 0 with hre | hre | hre
  · rw [if_neg (by linarith), if_pos hre]
    rcases le_or_lt 0 z.im with him | him
    · rw [if_pos him]
      exact arctan_add_pi_eq_arg hre him
    · rw [if_neg (not_le.mpr him)]
      exact arctan_sub_pi_eq_arg hre him
  · rw [if_neg (by simp [hre]), if_neg (by simp [hre])]
    rcases lt_trichotomy z.im 0 with him | him | him
    · rw [if_neg (by linarith), if_pos him]
      exact (Complex.arg_eq_neg_pi_div_two_iff.mpr ⟨hre, him⟩).symm
    · rw [if_neg (by linarith), if_neg (by linarith)]
      have hz : z = 0 := by
        apply Complex.ext <;> simp [hre, him]
      simp [hz]
    · rw [if_pos him]
      exact (Complex.arg_eq_pi_div_two_iff.mpr ⟨hre, him⟩).symm
  · rw [if_pos hre]
    exact arctan_im_div_re_eq_arg hre

lemma np_round3_one : np_round3 1 = 1 := by
  unfold np_round3 roundHalfEven
  norm_num [Int.fract]

lemma np_round3_half : np_round3 (1 / 2 : ℝ) = 1 / 2 := by
  unfold np_round3 roundHalfEven
  norm_num [Int.fract]

lemma Z_Q_one_one_one : Z_Q 1 1 1 = -I := by
  unfold Z_Q
  push_cast
  rw [one_mul, Complex.cpow_one, one_mul, one_div, Complex.inv_I]

lemma Z_Q_one_half_one :
    Z_Q 1 (1 / 2 : ℝ) 1 = 1 / (((Real.sqrt 2 / 2 : ℝ) : ℂ) * (1 + I)) := by
  unfold Z_Q
  rw [omega_mul_I_cpow one_pos, Real.one_rpow,
    show (1 / 2 : ℝ) * π / 2 = π / 4 by ring,
    Real.cos_pi_div_four, Real.sin_pi_div_four]
  push_cast
  ring_nf

lemma cir2Example_params : cir2Example.2 0 = [1, 1, 1, 1, 1, 1 / 2, 1] := by
  unfold cir2Example sim_cir2
  simp only [log_rand, lin_rand, Real.log_one]
  norm_num [np_round3_one, np_round3_half, Real.exp_zero]

lemma cir2Example_Zsum_eq :
    cir2Example.1 0 0 = 1 + par 1 (Z_Q 1 1 1) + par 1 (Z_Q 1 1 1) := by
  unfold cir2Example sim_cir2 genZR genZQ Z_R par
  simp only [log_rand, lin_rand, Real.log_one]
  norm_num [np_round3_one, Real.exp_zero]

/-! ## Claim C4 -/

/-- C4: for `f_min > 0`, `f_max > f_min`, `n_points ≥ 2`, `F_range`
returns strictly increasing frequencies, with first value `f_min`, last
value `f_max`, angular frequencies `2π·f` at every index, and the grid is
log-spaced base 10: `log10(freq i)` is the affine interpolation between
`log10 f_min` and `log10 f_max`. -/
theorem C4_F_range_grid (f_min f_max : ℝ) (n : ℕ)
    (hmin : 0 < f_min) (hlt : f_min < f_max) (hn : 2 ≤ n) :
    (∀ i j : ℕ, i < j → j < n →
        (F_range f_min f_max n).2 i < (F_range f_min f_max n).2 j) ∧
      (F_range f_min f_max n).2 0 = f_min ∧
      (F_range f_min f_max n).2 (n - 1) = f_max ∧
      (∀ i, (F_range f_min f_max n).1 i = 2 * π * (F_range f_min f_max n).2 i) ∧
      (∀ i, Real.logb 10 ((F_range f_min f_max n).2 i) =
        Real.logb 10 f_min +
          (Real.logb 10 f_max - Real.logb 10 f_min) * i / ((n : ℝ) - 1)) := by
  have hb : (1 : ℝ) < 10 := by norm_num
  have hmax : 0 < f_max := hmin.trans hlt
  have hba : Real.logb 10 f_min < Real.logb 10 f_max :=
    Real.logb_lt_logb hb hmin hlt
  have hd : (0 : ℝ) < (n : ℝ) - 1 := by
    have h2 : (2 : ℝ) ≤ (n : ℝ) := by exact_mod_cast hn
    linarith
  refine ⟨?_, ?_, ?_, ?_, ?_⟩
  · intro i j hij hjn
    simp only [F_range, logspace]
    apply Real.rpow_lt_rpow_of_exponent_lt hb
    have hijr : (i : ℝ) < (j : ℝ) := by exact_mod_cast hij
    have hmul : (Real.logb 10 f_max - Real.logb 10 f_min) * i
        < (Real.logb 10 f_max - Real.logb 10 f_min) * j :=
      mul_lt_mul_of_pos_left hijr (by linarith)
    have := div_lt_div_of_pos_right hmul hd
    linarith
  · simp only [F_range, logspace, Nat.cast_zero, mul_zero, zero_div, add_zero]
    exact Real.rpow_logb (by norm_num) (by norm_num) hmin
  · simp only [F_range, logspace]
    rw [Nat.cast_pred (by omega : 0 < n), mul_div_assoc, div_self hd.ne',
      mul_one, add_sub_cancel]
    exact Real.rpow_logb (by norm_num) (by norm_num) hmax
  · intro i
    rfl
  · intro i
    simp only [F_range, logspace]
    rw [Real.logb_rpow (by norm_num) (by norm_num)]

/-- C4 witness: the theorem applied at `(f_min, f_max, n) = (1, 10, 2)`. -/
theorem C4_F_range_grid_witness :
    (0 : ℝ) < 1 ∧ (1 : ℝ) < 10 ∧ 2 ≤ 2 ∧
      ((∀ i j : ℕ, i < j → j < 2 →
          (F_range 1 10 2).2 i < (F_range 1 10 2).2 j) ∧
        (F_range 1 10 2).2 0 = 1 ∧
        (F_range 1 10 2).2 (2 - 1) = 10 ∧
        (∀ i, (F_range 1 10 2).1 i = 2 * π * (F_range 1 10 2).2 i) ∧
        (∀ i, Real.logb 10 ((F_range 1 10 2).2 i) =
          Real.logb 10 1 + (Real.logb 10 10 - Real.logb 10 1) * i / ((2 : ℝ) - 1))) :=
  ⟨by norm_num, by norm_num, le_refl 2,
    by
      have h := C4_F_range_grid 1 10 2 (by norm_num) (by norm_num) (le_refl 2)
      simpa using h⟩

/-! ## Claim C5 -/

/-- C5 counterexample: at the malformed input
`(f_min, f_max, n_points) = (1, 10, 1)` (which violates `n_points ≥ 2`),
`F_range` does not fail: it returns a frequency array whose entry `0` is
the value `f_min = 1`.  The source contains no validation and no
`InvalidRangeError`. -/
theorem C5_counterexample_value_produced : (F_range 1 10 1).2 0 = 1 := by
  simp [F_range, logspace]

/-- C5 amended: `F_range` performs no input validation and never fails; it
totally returns the logspace arrays for every input.  The angular array is
`2π·freq` unconditionally; `n_points = 1` yields the single frequency
`f_min`; even the inverted range `(f_min, f_max) = (10, 1)` produces
arrays (the decreasing grid `10, 1`). -/
theorem C5_F_range_no_validation :
    (∀ (f_min f_max : ℝ) (n i : ℕ),
        (F_range f_min f_max n).1 i = 2 * π * (F_range f_min f_max n).2 i) ∧
      (∀ f_min f_max : ℝ, 0 < f_min → (F_range f_min f_max 1).2 0 = f_min) ∧
      (F_range 10 1 2).2 0 = 10 ∧ (F_range 10 1 2).2 1 = 1 := by
  refine ⟨fun _ _ _ _ => rfl, ?_, ?_, ?_⟩
  · intro f_min f_max hmin
    simp only [F_range, logspace, Nat.cast_zero, mul_zero, zero_div, add_zero,
      Nat.cast_one]
    exact Real.rpow_logb (by norm_num) (by norm_num) hmin
  · simp only [F_range, logspace, Nat.cast_zero, mul_zero, zero_div, add_zero]
    rw [Real.logb_self_eq_one (by norm_num)]
    exact Real.rpow_one 10
  · simp only [F_range, logspace, Nat.cast_one, Nat.cast_ofNat]
    rw [Real.logb_self_eq_one (by norm_num), Real.logb_one]
    norm_num

/-- C5 witness: the amended theorem applied at `f_min = 1`, `f_max = 10`. -/
theorem C5_F_range_no_validation_witness :
    (0 : ℝ) < 1 ∧ (F_range 1 10 1).2 0 = 1 :=
  ⟨one_pos, C5_F_range_no_validation.2.1 1 10 one_pos⟩

/-! ## Claim C6 -/

/-- C6 counterexample: `Z_Q` does not fail at `Q = -1 ≤ 0`; it returns the
ordinary complex value `j`.  The source contains no domain check and no
`DomainError`. -/
theorem C6_counterexample_value_produced : Z_Q (-1) 1 1 = I := by
  unfold Z_Q
  push_cast
  rw [one_mul, Complex.cpow_one,
    div_eq_iff (by simp [Complex.I_ne_zero] : (-1 : ℂ) * I ≠ 0)]
  linear_combination Complex.I_sq

/-- C6 amended: `Z_Q` and `Z_W` perform no domain validation: they are
total, and on every input outside the analytic domain (`Q < 0` or, for
either function, `ω < 0`) they return an ordinary complex value given by
the principal-branch formulas below, rather than failing.  (On the
analytic domain they return the analytic values, see the C7 theorem.) -/
theorem C6_no_domain_error :
    (∀ Q α ω : ℝ, 0 < ω →
        Z_Q Q α ω = 1 / ((Q : ℂ) * ((ω ^ α : ℝ) : ℂ) *
          (((Real.cos (α * π / 2) : ℝ) : ℂ) +
            ((Real.sin (α * π / 2) : ℝ) : ℂ) * I))) ∧
      (∀ Q α ω : ℝ, ω < 0 →
        Z_Q Q α ω = 1 / ((Q : ℂ) * (((-ω) ^ α : ℝ) : ℂ) *
          (((Real.cos (α * π / 2) : ℝ) : ℂ) -
            ((Real.sin (α * π / 2) : ℝ) : ℂ) * I))) ∧
      (∀ σ ω : ℝ, ω < 0 →
        Z_W σ ω = (σ : ℂ) * (1 + I) / ((Real.sqrt (-ω) : ℝ) : ℂ)) ∧
      (∀ σ ω : ℝ, 0 < ω →
        Z_W σ ω = (σ : ℂ) * (1 - I) / ((Real.sqrt ω : ℝ) : ℂ)) := by
  refine ⟨?_, ?_, ?_, ?_⟩
  · intro Q α ω hω
    exact Z_Q_polar Q α hω
  · intro Q α ω hω
    rw [Z_Q, omega_mul_I_cpow_of_neg hω, mul_assoc]
  · intro σ ω hω
    exact Z_W_closed_of_neg hω
  · intro σ ω hω
    exact Z_W_closed hω

/-- C6 witness: the amended theorem applied at `Q = -1`, `α = 1`,
`ω = 1` (first conjunct) — an input the claim says must raise. -/
theorem C6_no_domain_error_witness :
    (0 : ℝ) < 1 ∧
      Z_Q (-1) 1 1 = 1 / (((-1 : ℝ) : ℂ) * (((1 : ℝ) ^ (1 : ℝ) : ℝ) : ℂ) *
        (((Real.cos (1 * π / 2) : ℝ) : ℂ) +
          ((Real.sin (1 * π / 2) : ℝ) : ℂ) * I)) :=
  ⟨one_pos, C6_no_domain_error.1 (-1) 1 1 one_pos⟩

/-! ## Claim C7 -/

/-- C7: on the analytic domain, `Z_Q(Q, α, ω) = 1/(Q·(jω)^α)` with the
principal complex power, i.e. `1/(Q · ω^α · (cos(απ/2) + j·sin(απ/2)))`;
at `α = 1` this reduces to the ideal capacitor `1/(jωQ)`; and
`Z_W(σ, ω) = σ·√2/√(jω)` with `√(jω)` the principal square root
`exp(log(jω)/2)`, which evaluates to `σ·(1 − j)/√ω`. -/
theorem C7_element_closed_forms :
    (∀ Q α ω : ℝ, 0 < Q → 0 < ω →
        Z_Q Q α ω = 1 / ((Q : ℂ) * ((ω ^ α : ℝ) : ℂ) *
          (((Real.cos (α * π / 2) : ℝ) : ℂ) +
            ((Real.sin (α * π / 2) : ℝ) : ℂ) * I))) ∧
      (∀ Q ω : ℝ, 0 < Q → 0 < ω →
        Z_Q Q 1 ω = 1 / (I * (ω : ℂ) * (Q : ℂ))) ∧
      (∀ σ ω : ℝ, 0 < ω →
        Z_W σ ω = ((σ * Real.sqrt 2 : ℝ) : ℂ) /
          Complex.exp (Complex.log (I * (ω : ℂ)) * (1 / 2))) ∧
      (∀ σ ω : ℝ, 0 < ω →
        Z_W σ ω = (σ : ℂ) * (1 - I) / ((Real.sqrt ω : ℝ) : ℂ)) := by
  refine ⟨?_, ?_, ?_, ?_⟩
  · intro Q α ω _hQ hω
    exact Z_Q_polar Q α hω
  · intro Q ω _hQ hω
    unfold Z_Q
    push_cast
    rw [Complex.cpow_one]
    ring
  · intro σ ω hω
    rw [Z_W, Complex.cpow_def_of_ne_zero
      (mul_ne_zero Complex.I_ne_zero (Complex.ofReal_ne_zero.mpr hω.ne'))]
  · intro σ ω hω
    exact Z_W_closed hω

/-- C7 witness: the theorem's `α = 1` reduction applied at `Q = 1`,
`ω = 1`. -/
theorem C7_element_closed_forms_witness :
    (0 : ℝ) < 1 ∧ Z_Q 1 1 1 = 1 / (I * ((1 : ℝ) : ℂ) * ((1 : ℝ) : ℂ)) :=
  ⟨one_pos, C7_element_closed_forms.2.1 1 1 one_pos one_pos⟩

/-! ## Claim C3 -/

/-- C3 counterexample: on the spectrum entry `Z = -1 + j` (negative real
part), channel 1 of `arrange_data` — the simulator's persisted-export
encoding — is `degrees(arctan(Im/Re)) = -45°`, which differs from the
quadrant-correct `degrees(arctan2(Im, Re)) = 135°`. -/
theorem C3_counterexample_quadrant_blind :
    (arrange_data (fun _ _ => (⟨-1, 1⟩ : ℂ)) 0).1 0 1 0 ≠
      degrees (arctan2 1 (-1)) := by
  simp only [arrange_data, arctan2, degrees]
  norm_num
  intro h
  have hπ : π ≠ 0 := Real.pi_ne_zero
  field_simp at h
  nlinarith [mul_pos Real.pi_pos Real.pi_pos, h]

/-- C3 amended: the dashboard `.mat`-download encoding (`app.py`) computes
channel 1 quadrant-correctly: it equals `degrees(arg Z)` with Mathlib's
principal argument, for every entry (including `Re < 0`).  The simulator's
own `arrange_data` export path computes `degrees(arctan(Im/Re))`, which
agrees with the quadrant-correct phase only on the open right half-plane
`Re > 0`. -/
theorem C3_phase_channel_quadrant :
    (∀ (Zsum : ℕ → ℕ → ℂ) (i k : ℕ),
        app_mat_x_data Zsum i 1 k = degrees (Complex.arg (Zsum i k))) ∧
      (∀ (Circuit : ℕ → ℕ → ℂ) (c : ℝ) (i k : ℕ), 0 < (Circuit i k).re →
        (arrange_data Circuit c).1 i 1 k = degrees (Complex.arg (Circuit i k))) := by
  constructor
  · intro Z i k
    norm_num [app_mat_x_data]
    rw [arctan2_eq_arg]
  · intro Z c i k hre
    norm_num [arrange_data]
    rw [arctan_im_div_re_eq_arg hre]

/-- C3 witness: the amended theorem's `arrange_data` clause applied to the
constant spectrum `Z = 1 + j` (positive real part). -/
theorem C3_phase_channel_quadrant_witness :
    (0 : ℝ) < ((⟨1, 1⟩ : ℂ)).re ∧
      (arrange_data (fun _ _ => (⟨1, 1⟩ : ℂ)) 0).1 0 1 0 =
        degrees (Complex.arg ((⟨1, 1⟩ : ℂ))) :=
  ⟨one_pos, C3_phase_channel_quadrant.2 (fun _ _ => (⟨1, 1⟩ : ℂ)) 0 0 0 one_pos⟩

/-! ## Claim C1 -/

/-- C1 counterexample: in the concrete circuit-2 run `cir2Example`
(stored row `[R1, R2, R3, α1, Q1, α2, Q2] = [1, 1, 1, 1, 1, 1/2, 1]`),
the returned impedance `Zsum[0][0]` does **not** equal the §4.4 table
formula `R1 + (R2 ∥ Q1) + (R3 ∥ Q2)` evaluated at the stored sampled
values with the table's pairing of `α2` with `Q2`: the code evaluated the
second CPE with `α1 = 1`, not with the stored `α2 = 1/2`. -/
theorem C1_counterexample_alpha_pairing :
    cir2Example.1 0 0 ≠
      ((cir2Example.2 0).getD 0 0 : ℝ) +
        par ((cir2Example.2 0).getD 1 0)
          (Z_Q ((cir2Example.2 0).getD 4 0) ((cir2Example.2 0).getD 3 0) 1) +
        par ((cir2Example.2 0).getD 2 0)
          (Z_Q ((cir2Example.2 0).getD 6 0) ((cir2Example.2 0).getD 5 0) 1) := by
  rw [cir2Example_Zsum_eq, cir2Example_params]
  norm_num [List.getD]
  intro h2
  rw [Z_Q_one_one_one, Z_Q_one_half_one] at h2
  unfold par at h2
  rw [one_div_one_div] at h2
  simp only [one_div_one] at h2
  have hs : ((Real.sqrt 2 / 2 : ℝ) : ℂ) * (1 + I) ≠ 0 := by
    refine mul_ne_zero (Complex.ofReal_ne_zero.mpr ?_) one_add_I_ne_zero
    have := Real.sqrt_pos.mpr (by norm_num : (0 : ℝ) < 2)
    positivity
  have hd1 : (1 : ℂ) + 1 / -I ≠ 0 := by
    rw [one_div, inv_neg, Complex.inv_I, neg_neg]
    exact one_add_I_ne_zero
  have hd2 : (1 : ℂ) + ((Real.sqrt 2 / 2 : ℝ) : ℂ) * (1 + I) ≠ 0 := by
    intro h0
    have hre := congrArg Complex.re h0
    simp [Complex.add_re, Complex.mul_re, Complex.ofReal_re, Complex.ofReal_im] at hre
    nlinarith [Real.sqrt_nonneg 2, hre]
  rw [div_eq_div_iff hd1 hd2] at h2
  have h3 : ((Real.sqrt 2 / 2 : ℝ) : ℂ) * (1 + I) = 1 / -I := by
    have := h2
    ring_nf at this ⊢
    linear_combination this
  rw [one_div, inv_neg, Complex.inv_I, neg_neg] at h3
  have hre := congrArg Complex.re h3
  simp [Complex.mul_re, Complex.ofReal_re, Complex.ofReal_im, Complex.I_re] at hre

/-- C1 amended: for every circuit and all sampled draws, the returned
parameter row `i` is exactly the list of sampled element values in the
§4.4 table's column order, and `Zsum[i][k]` equals the table's analytic
composition (with `∥` as `par`) evaluated at row `i`'s stored values and
`ω_k` — except that, per the §4.4/§9 quirk and as forced by the
counterexample, in circuits 2, 4 and 5 the second CPE is evaluated with
the stored `α1` (column 3) in place of the stored `α2` (column 5). -/
theorem C1_sim_circuit_table_formulas :
    (∀ (ω : ℕ → ℝ) (rr ar qr : ℝ × ℝ) (u1 u2 u3 u4 : ℕ → ℝ) (i k : ℕ),
        (sim_cir1 ω rr ar qr u1 u2 u3 u4).1 i k =
          (((sim_cir1 ω rr ar qr u1 u2 u3 u4).2 i).getD 0 0 : ℝ) +
            par (((sim_cir1 ω rr ar qr u1 u2 u3 u4).2 i).getD 1 0)
              (Z_Q (((sim_cir1 ω rr ar qr u1 u2 u3 u4).2 i).getD 3 0)
                (((sim_cir1 ω rr ar qr u1 u2 u3 u4).2 i).getD 2 0) (ω k)) ∧
          (sim_cir1 ω rr ar qr u1 u2 u3 u4).2 i =
            [log_rand rr.1 rr.2 u1 i, log_rand rr.1 rr.2 u2 i,
              np_round3 (lin_rand ar.1 ar.2 u3 i), log_rand qr.1 qr.2 u4 i]) ∧
      (∀ (ω : ℕ → ℝ) (rr ar qr : ℝ × ℝ) (u1 u2 u3 u4 u5 u6 u7 : ℕ → ℝ) (i k : ℕ),
        (sim_cir2 ω rr ar qr u1 u2 u3 u4 u5 u6 u7).1 i k =
          (((sim_cir2 ω rr ar qr u1 u2 u3 u4 u5 u6 u7).2 i).getD 0 0 : ℝ) +
            par (((sim_cir2 ω rr ar qr u1 u2 u3 u4 u5 u6 u7).2 i).getD 1 0)
              (Z_Q (((sim_cir2 ω rr ar qr u1 u2 u3 u4 u5 u6 u7).2 i).getD 4 0)
                (((sim_cir2 ω rr ar qr u1 u2 u3 u4 u5 u6 u7).2 i).getD 3 0) (ω k)) +
            par (((sim_cir2 ω rr ar qr u1 u2 u3 u4 u5 u6 u7).2 i).getD 2 0)
              (Z_Q (((sim_cir2 ω rr ar qr u1 u2 u3 u4 u5 u6 u7).2 i).getD 6 0)
                (((sim_cir2 ω rr ar qr u1 u2 u3 u4 u5 u6 u7).2 i).getD 3 0) (ω k)) ∧
          (sim_cir2 ω rr ar qr u1 u2 u3 u4 u5 u6 u7).2 i =
            [log_rand rr.1 rr.2 u1 i, log_rand rr.1 rr.2 u2 i,
              log_rand rr.1 rr.2 u5 i, np_round3 (lin_rand ar.1 ar.2 u3 i),
              log_rand qr.1 qr.2 u4 i, np_round3 (lin_rand ar.1 ar.2 u6 i),
              log_rand qr.1 qr.2 u7 i]) ∧
      (∀ (ω : ℕ → ℝ) (rr ar qr sr : ℝ × ℝ) (u1 u2 u3 u4 u5 : ℕ → ℝ) (i k : ℕ),
        (sim_cir3 ω rr ar qr sr u1 u2 u3 u4 u5).1 i k =
          (((sim_cir3 ω rr ar qr sr u1 u2 u3 u4 u5).2 i).getD 0 0 : ℝ) +
            par (Z_Q (((sim_cir3 ω rr ar qr sr u1 u2 u3 u4 u5).2 i).getD 3 0)
                (((sim_cir3 ω rr ar qr sr u1 u2 u3 u4 u5).2 i).getD 2 0) (ω k))
              ((((sim_cir3 ω rr ar qr sr u1 u2 u3 u4 u5).2 i).getD 1 0 : ℝ) +
                Z_W (((sim_cir3 ω rr ar qr sr u1 u2 u3 u4 u5).2 i).getD 4 0) (ω k)) ∧
          (sim_cir3 ω rr ar qr sr u1 u2 u3 u4 u5).2 i =
            [log_rand rr.1 rr.2 u1 i, log_rand rr.1 rr.2 u4 i,
              np_round3 (lin_rand ar.1 ar.2 u2 i), log_rand qr.1 qr.2 u3 i,
              log_rand sr.1 sr.2 u5 i]) ∧
      (∀ (ω : ℕ → ℝ) (rr ar qr sr : ℝ × ℝ) (u1 u2 u3 u4 u5 u6 u7 u8 : ℕ → ℝ)
          (i k : ℕ),
        (sim_cir4 ω rr ar qr sr u1 u2 u3 u4 u5 u6 u7 u8).1 i k =
          (((sim_cir4 ω rr ar qr sr u1 u2 u3 u4 u5 u6 u7 u8).2 i).getD 0 0 : ℝ) +
            par (((sim_cir4 ω rr ar qr sr u1 u2 u3 u4 u5 u6 u7 u8).2 i).getD 1 0)
              (Z_Q (((sim_cir4 ω rr ar qr sr u1 u2 u3 u4 u5 u6 u7 u8).2 i).getD 4 0)
                (((sim_cir4 ω rr ar qr sr u1 u2 u3 u4 u5 u6 u7 u8).2 i).getD 3 0)
                (ω k)) +
            par (Z_Q (((sim_cir4 ω rr ar qr sr u1 u2 u3 u4 u5 u6 u7 u8).2 i).getD 6 0)
                (((sim_cir4 ω rr ar qr sr u1 u2 u3 u4 u5 u6 u7 u8).2 i).getD 3 0)
                (ω k))
              ((((sim_cir4 ω rr ar qr sr u1 u2 u3 u4 u5 u6 u7 u8).2 i).getD 2 0 : ℝ) +
                Z_W (((sim_cir4 ω rr ar qr sr u1 u2 u3 u4 u5 u6 u7 u8).2 i).getD 7 0)
                  (ω k)) ∧
          (sim_cir4 ω rr ar qr sr u1 u2 u3 u4 u5 u6 u7 u8).2 i =
            [log_rand rr.1 rr.2 u1 i, log_rand rr.1 rr.2 u2 i,
              log_rand rr.1 rr.2 u7 i, np_round3 (lin_rand ar.1 ar.2 u3 i),
              log_rand qr.1 qr.2 u4 i, np_round3 (lin_rand ar.1 ar.2 u5 i),
              log_rand qr.1 qr.2 u6 i, log_rand sr.1 sr.2 u8 i]) ∧
      (∀ (ω : ℕ → ℝ) (rr ar qr sr : ℝ × ℝ) (u1 u2 u3 u4 u5 u6 u7 u8 : ℕ → ℝ)
          (i k : ℕ),
        (sim_cir5 ω rr ar qr sr u1 u2 u3 u4 u5 u6 u7 u8).1 i k =
          (((sim_cir5 ω rr ar qr sr u1 u2 u3 u4 u5 u6 u7 u8).2 i).getD 0 0 : ℝ) +
            par ((((sim_cir5 ω rr ar qr sr u1 u2 u3 u4 u5 u6 u7 u8).2 i).getD 1 0 : ℝ) +
                par ((((sim_cir5 ω rr ar qr sr u1 u2 u3 u4 u5 u6 u7 u8).2 i).getD 2 0 : ℝ) +
                    Z_W (((sim_cir5 ω rr ar qr sr u1 u2 u3 u4 u5 u6 u7 u8).2 i).getD 7 0)
                      (ω k))
                  (Z_Q (((sim_cir5 ω rr ar qr sr u1 u2 u3 u4 u5 u6 u7 u8).2 i).getD 6 0)
                    (((sim_cir5 ω rr ar qr sr u1 u2 u3 u4 u5 u6 u7 u8).2 i).getD 3 0)
                    (ω k)))
              (Z_Q (((sim_cir5 ω rr ar qr sr u1 u2 u3 u4 u5 u6 u7 u8).2 i).getD 4 0)
                (((sim_cir5 ω rr ar qr sr u1 u2 u3 u4 u5 u6 u7 u8).2 i).getD 3 0)
                (ω k)) ∧
          (sim_cir5 ω rr ar qr sr u1 u2 u3 u4 u5 u6 u7 u8).2 i =
            [log_rand rr.1 rr.2 u1 i, log_rand rr.1 rr.2 u2 i,
              log_rand rr.1 rr.2 u5 i, np_round3 (lin_rand ar.1 ar.2 u3 i),
              log_rand qr.1 qr.2 u4 i, np_round3 (lin_rand ar.1 ar.2 u6 i),
              log_rand qr.1 qr.2 u7 i, log_rand sr.1 sr.2 u8 i]) :=
  ⟨fun _ _ _ _ _ _ _ _ _ _ => ⟨rfl, rfl⟩,
    fun _ _ _ _ _ _ _ _ _ _ _ _ _ => ⟨rfl, rfl⟩,
    fun _ _ _ _ _ _ _ _ _ _ _ _ => ⟨rfl, rfl⟩,
    fun _ _ _ _ _ _ _ _ _ _ _ _ _ _ _ => ⟨rfl, rfl⟩,
    fun _ _ _ _ _ _ _ _ _ _ _ _ _ _ _ => ⟨rfl, rfl⟩⟩

/-! ## Claim C2 -/

/-- C2: in circuits 2, 4 and 5 the two ideality factors are drawn from
independent streams, but `Zsum` is computed using `α1` for **both** CPEs —
it does not depend on the `α2` draw at all (first clause per circuit),
while the parameter matrix stores the independently sampled `α2` at the
table's α2 column (index 5) (second clause per circuit); the impedance
formula actually evaluated puts column 3 (`α1`) into the second CPE
(third clause per circuit, shown here for circuit 2 and in the C1 theorem
for circuits 4 and 5 as well). -/
theorem C2_second_cpe_alpha1_quirk :
    (∀ (ω : ℕ → ℝ) (rr ar qr : ℝ × ℝ) (u1 u2 u3 u4 u5 u6 u6' u7 : ℕ → ℝ),
        (sim_cir2 ω rr ar qr u1 u2 u3 u4 u5 u6 u7).1 =
          (sim_cir2 ω rr ar qr u1 u2 u3 u4 u5 u6' u7).1) ∧
      (∀ (ω : ℕ → ℝ) (rr ar qr : ℝ × ℝ) (u1 u2 u3 u4 u5 u6 u7 : ℕ → ℝ) (i : ℕ),
        ((sim_cir2 ω rr ar qr u1 u2 u3 u4 u5 u6 u7).2 i).getD 5 0 =
          np_round3 (lin_rand ar.1 ar.2 u6 i)) ∧
      (∀ (ω : ℕ → ℝ) (rr ar qr : ℝ × ℝ) (u1 u2 u3 u4 u5 u6 u7 : ℕ → ℝ) (i k : ℕ),
        (sim_cir2 ω rr ar qr u1 u2 u3 u4 u5 u6 u7).1 i k =
          ((log_rand rr.1 rr.2 u1 i : ℝ) : ℂ) +
            par (log_rand rr.1 rr.2 u2 i)
              (Z_Q (log_rand qr.1 qr.2 u4 i)
                (np_round3 (lin_rand ar.1 ar.2 u3 i)) (ω k)) +
            par (log_rand rr.1 rr.2 u5 i)
              (Z_Q (log_rand qr.1 qr.2 u7 i)
                (np_round3 (lin_rand ar.1 ar.2 u3 i)) (ω k))) ∧
      (∀ (ω : ℕ → ℝ) (rr ar qr sr : ℝ × ℝ) (u1 u2 u3 u4 u5 u6 u7 u8 u5' : ℕ → ℝ),
        (sim_cir4 ω rr ar qr sr u1 u2 u3 u4 u5 u6 u7 u8).1 =
          (sim_cir4 ω rr ar qr sr u1 u2 u3 u4 u5' u6 u7 u8).1) ∧
      (∀ (ω : ℕ → ℝ) (rr ar qr sr : ℝ × ℝ) (u1 u2 u3 u4 u5 u6 u7 u8 : ℕ → ℝ)
          (i : ℕ),
        ((sim_cir4 ω rr ar qr sr u1 u2 u3 u4 u5 u6 u7 u8).2 i).getD 5 0 =
          np_round3 (lin_rand ar.1 ar.2 u5 i)) ∧
      (∀ (ω : ℕ → ℝ) (rr ar qr sr : ℝ × ℝ) (u1 u2 u3 u4 u5 u6 u7 u8 u6' : ℕ → ℝ),
        (sim_cir5 ω rr ar qr sr u1 u2 u3 u4 u5 u6 u7 u8).1 =
          (sim_cir5 ω rr ar qr sr u1 u2 u3 u4 u5 u6' u7 u8).1) ∧
      (∀ (ω : ℕ → ℝ) (rr ar qr sr : ℝ × ℝ) (u1 u2 u3 u4 u5 u6 u7 u8 : ℕ → ℝ)
          (i : ℕ),
        ((sim_cir5 ω rr ar qr sr u1 u2 u3 u4 u5 u6 u7 u8).2 i).getD 5 0 =
          np_round3 (lin_rand ar.1 ar.2 u6 i)) :=
  by refine ⟨?_, ?_, ?_, ?_, ?_, ?_, ?_⟩ <;> intros <;> rfl

/-! ## Claim C8 -/

/-- C8 counterexample: on the all-ones 8-column parameter matrix in test
mode, the preprocessed Q column (result column 3, from input column 4) is
`10^6` — the test-mode multiplier is `10^6`, which is neither `10^4` nor
`10^7` as the claim states. -/
theorem C8_counterexample_test_scale :
    (load_and_preprocess_y true 8 (fun _ _ => 1)).1 0 3 = 10 ^ 6 ∧
      (load_and_preprocess_y true 8 (fun _ _ => 1)).1 0 3 ≠ 10 ^ 4 * 1 ∧
      (load_and_preprocess_y true 8 (fun _ _ => 1)).1 0 3 ≠ 10 ^ 7 * 1 := by
  refine ⟨?_, ?_, ?_⟩ <;>
    norm_num [load_and_preprocess_y, delete_cols_3_5, scale_y]

/-- C8 amended: on an 8-column matrix the preprocessor strips the ideality
columns (3 and 5) and scales the adjacent Q columns (4 and 6) by `10^7`
in train mode and by `10^6` in test mode (train mode also multiplies the
ideality columns by `10^4`, but they are deleted immediately afterwards),
leaving a 6-column matrix `[R1, R2, R3, Q1·s, Q2·s, σ]`; the simulator
(`_sim_cir4`) stores the raw sampled values with no scaling. -/
theorem C8_preprocess_scaling :
    (∀ (y : ℕ → ℕ → ℝ) (i : ℕ),
        (load_and_preprocess_y false 8 y).1 i 0 = y i 0 ∧
          (load_and_preprocess_y false 8 y).1 i 1 = y i 1 ∧
          (load_and_preprocess_y false 8 y).1 i 2 = y i 2 ∧
          (load_and_preprocess_y false 8 y).1 i 3 = y i 4 * 10 ^ 7 ∧
          (load_and_preprocess_y false 8 y).1 i 4 = y i 6 * 10 ^ 7 ∧
          (load_and_preprocess_y false 8 y).1 i 5 = y i 7 ∧
          (load_and_preprocess_y false 8 y).2 = 6) ∧
      (∀ (y : ℕ → ℕ → ℝ) (i : ℕ),
        (load_and_preprocess_y true 8 y).1 i 0 = y i 0 ∧
          (load_and_preprocess_y true 8 y).1 i 1 = y i 1 ∧
          (load_and_preprocess_y true 8 y).1 i 2 = y i 2 ∧
          (load_and_preprocess_y true 8 y).1 i 3 = y i 4 * 10 ^ 6 ∧
          (load_and_preprocess_y true 8 y).1 i 4 = y i 6 * 10 ^ 6 ∧
          (load_and_preprocess_y true 8 y).1 i 5 = y i 7 ∧
          (load_and_preprocess_y true 8 y).2 = 6) ∧
      (∀ (ω : ℕ → ℝ) (rr ar qr sr : ℝ × ℝ) (u1 u2 u3 u4 u5 u6 u7 u8 : ℕ → ℝ)
          (i : ℕ),
        (sim_cir4 ω rr ar qr sr u1 u2 u3 u4 u5 u6 u7 u8).2 i =
          [log_rand rr.1 rr.2 u1 i, log_rand rr.1 rr.2 u2 i,
            log_rand rr.1 rr.2 u7 i, np_round3 (lin_rand ar.1 ar.2 u3 i),
            log_rand qr.1 qr.2 u4 i, np_round3 (lin_rand ar.1 ar.2 u5 i),
            log_rand qr.1 qr.2 u6 i, log_rand sr.1 sr.2 u8 i]) := by
  refine ⟨?_, ?_, ?_⟩
  · intro y i
    refine ⟨?_, ?_, ?_, ?_, ?_, ?_, ?_⟩ <;>
      norm_num [load_and_preprocess_y, delete_cols_3_5, scale_y]
  · intro y i
    refine ⟨?_, ?_, ?_, ?_, ?_, ?_, ?_⟩ <;>
      norm_num [load_and_preprocess_y, delete_cols_3_5, scale_y]
  · intros
    rfl

/-! ## Claim C9 -/

/-- C9: for every `circuit_id` outside `{1, 2, 3, 4, 5}`, `sim_circuit`
fails immediately with the unknown-circuit error (the source's
`raise ValueError(f"Unknown circuit_id: ...")`), evaluating no fallback
topology: no `ok` value exists. -/
theorem C9_unknown_circuit_errors (cid : ℤ)
    (h : cid ∉ ({1, 2, 3, 4, 5} : Finset ℤ)) (ω : ℕ → ℝ)
    (rr ar qr sr : ℝ × ℝ) (u1 u2 u3 u4 u5 u6 u7 u8 : ℕ → ℝ) :
    sim_circuit cid ω rr ar qr sr u1 u2 u3 u4 u5 u6 u7 u8 =
        Except.error ("Unknown circuit_id: " ++ toString cid) ∧
      ¬∃ out, sim_circuit cid ω rr ar qr sr u1 u2 u3 u4 u5 u6 u7 u8 =
        Except.ok out := by
  simp only [Finset.mem_insert, Finset.mem_singleton, not_or] at h
  obtain ⟨h1, h2, h3, h4, h5⟩ := h
  have heq : sim_circuit cid ω rr ar qr sr u1 u2 u3 u4 u5 u6 u7 u8 =
      Except.error ("Unknown circuit_id: " ++ toString cid) := by
    simp [sim_circuit, h1, h2, h3, h4, h5]
  refine ⟨heq, ?_⟩
  rintro ⟨out, hout⟩
  rw [heq] at hout
  exact Except.noConfusion hout

/-- C9 witness: the theorem applied at `circuit_id = 0` and
`circuit_id = 6`. -/
theorem C9_unknown_circuit_errors_witness :
    ((0 : ℤ) ∉ ({1, 2, 3, 4, 5} : Finset ℤ)) ∧
      ((6 : ℤ) ∉ ({1, 2, 3, 4, 5} : Finset ℤ)) ∧
      sim_circuit 0 (fun _ => 1) (1, 1) (1, 1) (1, 1) (1, 1) (fun _ => 0)
          (fun _ => 0) (fun _ => 0) (fun _ => 0) (fun _ => 0) (fun _ => 0)
          (fun _ => 0) (fun _ => 0) =
        Except.error ("Unknown circuit_id: " ++ toString (0 : ℤ)) ∧
      sim_circuit 6 (fun _ => 1) (1, 1) (1, 1) (1, 1) (1, 1) (fun _ => 0)
          (fun _ => 0) (fun _ => 0) (fun _ => 0) (fun _ => 0) (fun _ => 0)
          (fun _ => 0) (fun _ => 0) =
        Except.error ("Unknown circuit_id: " ++ toString (6 : ℤ)) :=
  ⟨by decide, by decide,
    (C9_unknown_circuit_errors 0 (by decide) (fun _ => 1) (1, 1) (1, 1) (1, 1)
      (1, 1) (fun _ => 0) (fun _ => 0) (fun _ => 0) (fun _ => 0) (fun _ => 0)
      (fun _ => 0) (fun _ => 0) (fun _ => 0)).1,
    (C9_unknown_circuit_errors 6 (by decide) (fun _ => 1) (1, 1) (1, 1) (1, 1)
      (1, 1) (fun _ => 0) (fun _ => 0) (fun _ => 0) (fun _ => 0) (fun _ => 0)
      (fun _ => 0) (fun _ => 0) (fun _ => 0)).1⟩

/-! ## Claim C10 -/

lemma flat_index_div_mod {C p c : ℕ} (hc : c < 2 * C) :
    (p * (2 * C) + c) / (2 * C) = p ∧ (p * (2 * C) + c) % (2 * C) = c := by
  have h2C : 0 < 2 * C := by omega
  constructor
  · rw [mul_comm p (2 * C), Nat.mul_add_div h2C, Nat.div_eq_of_lt hc, add_zero]
  · rw [mul_comm p (2 * C), Nat.mul_add_mod, Nat.mod_eq_of_lt hc]

/-- C10: `load_mat_spectrum` builds its feature row solely from spectrum
`0`: flat position `p·2C + c` holds channel `c` of point `p` for `c < C`
and its negation for `C ≤ c < 2C`, and any two inputs that agree on
spectrum `0` produce identical output — the spectra at indices `1..N−1`
have no effect. -/
theorem C10_load_mat_spectrum_first_sample (C P : ℕ) (_hC : 0 < C)
    (x x' : ℕ → ℕ → ℕ → ℝ) (hagree : ∀ c p, x 0 c p = x' 0 c p) :
    (∀ p c : ℕ, p < P → c < C →
        load_mat_spectrum C x (p * (2 * C) + c) = x 0 c p ∧
          load_mat_spectrum C x (p * (2 * C) + (C + c)) = -(x 0 c p)) ∧
      (∀ j, load_mat_spectrum C x j = load_mat_spectrum C x' j) := by
  constructor
  · intro p c _hp hc
    constructor
    · obtain ⟨hdiv, hmod⟩ := flat_index_div_mod (C := C) (p := p) (c := c)
        (by omega)
      unfold load_mat_spectrum mat_augment
      rw [hdiv, hmod, if_pos hc]
    · obtain ⟨hdiv, hmod⟩ := flat_index_div_mod (C := C) (p := p) (c := C + c)
        (by omega)
      unfold load_mat_spectrum mat_augment
      rw [hdiv, hmod, if_neg (by omega), if_pos (by omega),
        Nat.add_sub_cancel_left]
  · intro j
    unfold load_mat_spectrum mat_augment
    split_ifs <;> simp [hagree]

/-- C10 witness: the theorem applied at `C = 1`, `P = 1` and the constant
input array `x ≡ 1`. -/
theorem C10_load_mat_spectrum_first_sample_witness :
    0 < 1 ∧
      ((∀ p c : ℕ, p < 1 → c < 1 →
          load_mat_spectrum 1 (fun _ _ _ => (1 : ℝ)) (p * (2 * 1) + c) =
              (fun _ _ _ => (1 : ℝ)) 0 c p ∧
            load_mat_spectrum 1 (fun _ _ _ => (1 : ℝ)) (p * (2 * 1) + (1 + c)) =
              -((fun _ _ _ => (1 : ℝ)) 0 c p)) ∧
        (∀ j, load_mat_spectrum 1 (fun _ _ _ => (1 : ℝ)) j =
          load_mat_spectrum 1 (fun _ _ _ => (1 : ℝ)) j)) :=
  ⟨one_pos,
    C10_load_mat_spectrum_first_sample 1 1 one_pos (fun _ _ _ => (1 : ℝ))
      (fun _ _ _ => (1 : ℝ)) (fun _ _ => rfl)⟩

end EIS
